import Mathlib

/-!
Shallow embedding of the DNS codec, response builder and wildcard rule trie
of the `limo-web3-dns` repository (sources under `src/dns/proto/mod.rs`,
`src/dns/mod.rs`, `src/dns/rule_trie/mod.rs`).  Bytes are modelled as `Nat`
values (< 256 on the wire), machine-integer truncation is written explicitly
as `% 256` / `% 65536`, and Rust `Option`/`Result` return values become
`Option`/`Except`.  External crates (`punycode`, `multiaddr`) appear as
function parameters of the embedded definitions.
-/

namespace Limo

/-- Big-endian serialization of a 16-bit value (`u16::to_be_bytes`). -/
def u16be (n : Nat) : List Nat := [n / 256 % 256, n % 256]

/-- Big-endian serialization of a 32-bit value (`u32::to_be_bytes`). -/
def u32be (n : Nat) : List Nat :=
  [n / 16777216 % 256, n / 65536 % 256, n / 256 % 256, n % 256]

/-- UTF-8 encoding of one scalar value (`char` in Rust; `String::into_bytes`
encodes each char this way). -/
def utf8EncodeChar (c : Nat) : List Nat :=
  if c < 128 then [c]
  else if c < 2048 then [192 + c / 64, 128 + c % 64]
  else if c < 65536 then [224 + c / 4096, 128 + c / 64 % 64, 128 + c % 64]
  else [240 + c / 262144, 128 + c / 4096 % 64, 128 + c / 64 % 64, 128 + c % 64]

/-- The UTF-8 bytes of a Lean `String`, modelling Rust `str::as_bytes` /
`String::into_bytes`. -/
def strBytes (s : String) : List Nat :=
  (s.data.map (fun c => utf8EncodeChar c.toNat)).flatten

/-- UTF-8 decoding of a byte sequence into its scalar values, modelling
`String::from_utf8` (returns `none` exactly on invalid UTF-8: stray
continuation bytes, overlong forms, surrogates, values above U+10FFFF). -/
def utf8Decode : List Nat → Option (List Nat)
  | [] => some []
  | b :: rest =>
    if b < 128 then (utf8Decode rest).map (fun l => b :: l)
    else if b < 194 then none
    else if b < 224 then
      match rest with
      | b1 :: r =>
        if 128 ≤ b1 ∧ b1 < 192 then
          (utf8Decode r).map (fun l => ((b - 192) * 64 + (b1 - 128)) :: l)
        else none
      | [] => none
    else if b < 240 then
      match rest with
      | b1 :: b2 :: r =>
        if 128 ≤ b1 ∧ b1 < 192 ∧ 128 ≤ b2 ∧ b2 < 192 then
          let cp := (b - 224) * 4096 + (b1 - 128) * 64 + (b2 - 128)
          if 2048 ≤ cp ∧ ¬ (55296 ≤ cp ∧ cp < 57344) then
            (utf8Decode r).map (fun l => cp :: l)
          else none
        else none
      | _ => none
    else if b < 245 then
      match rest with
      | b1 :: b2 :: b3 :: r =>
        if 128 ≤ b1 ∧ b1 < 192 ∧ 128 ≤ b2 ∧ b2 < 192 ∧ 128 ≤ b3 ∧ b3 < 192 then
          let cp := (b - 240) * 262144 + (b1 - 128) * 4096 + (b2 - 128) * 64 + (b3 - 128)
          if 65536 ≤ cp ∧ cp < 1114112 then
            (utf8Decode r).map (fun l => cp :: l)
          else none
        else none
      | _ => none
    else none

/-! ## Flags, opcodes, rcodes (src/dns/proto/mod.rs lines 61-144) -/

/-- `enum Opcode { Query = 0, Other(u16) }`. -/
inductive Opcode : Type where
  | Query : Opcode
  | Other : Nat → Opcode
  deriving DecidableEq

/-- `impl From<u16> for Opcode`. -/
def Opcode.fromNat : Nat → Opcode
  | 0 => Opcode.Query
  | n => Opcode.Other n

/-- `impl From<Opcode> for u16`. -/
def Opcode.toNat : Opcode → Nat
  | Opcode.Query => 0
  | Opcode.Other c => c

/-- `enum RCode { NoError = 0, FormatError = 1, ServerFailure = 2, Other(u16) }`. -/
inductive RCode : Type where
  | NoError : RCode
  | FormatError : RCode
  | ServerFailure : RCode
  | Other : Nat → RCode
  deriving DecidableEq

/-- `impl From<u16> for RCode`. -/
def RCode.fromNat : Nat → RCode
  | 0 => RCode.NoError
  | 1 => RCode.FormatError
  | 2 => RCode.ServerFailure
  | n => RCode.Other n

/-- `impl From<RCode> for u16`. -/
def RCode.toNat : RCode → Nat
  | RCode.NoError => 0
  | RCode.FormatError => 1
  | RCode.ServerFailure => 2
  | RCode.Other c => c

/-- `struct DnsFlags`. -/
structure DnsFlags : Type where
  qr : Bool
  opcode : Opcode
  aa : Bool
  tc : Bool
  rd : Bool
  ra : Bool
  rcode : RCode
  deriving DecidableEq

/-- `be_u16` from nom: consume two bytes, big-endian. -/
def be_u16 : List Nat → Option (List Nat × Nat)
  | a :: b :: rest => some (rest, a * 256 + b)
  | _ => none

/-- `be_u8` from nom: consume one byte. -/
def be_u8 : List Nat → Option (List Nat × Nat)
  | a :: rest => some (rest, a)
  | _ => none

/-- Field extraction of `DnsFlags::parse` from the 16-bit flags word. -/
def DnsFlags.ofWord (flags : Nat) : DnsFlags :=
  { qr := flags &&& 32768 != 0
    opcode := Opcode.fromNat ((flags &&& 30720) >>> 11)
    aa := flags &&& 1024 != 0
    tc := flags &&& 512 != 0
    rd := flags &&& 256 != 0
    ra := flags &&& 128 != 0
    rcode := RCode.fromNat (flags &&& 15) }

/-- `DnsFlags::parse` (`impl Parseable<DnsFlags>`): reads a big-endian `u16`
and unpacks the bit fields. -/
def DnsFlags.parse (input : List Nat) : Option (List Nat × DnsFlags) :=
  (be_u16 input).map (fun p => (p.1, DnsFlags.ofWord p.2))

/-- The 16-bit flags word built by `DnsFlags::serialize`. -/
def DnsFlags.word (f : DnsFlags) : Nat :=
  (f.qr.toNat <<< 15) |||
  ((Opcode.toNat f.opcode &&& 15) <<< 11) |||
  (f.aa.toNat <<< 10) |||
  (f.tc.toNat <<< 9) |||
  (f.rd.toNat <<< 8) |||
  (f.ra.toNat <<< 7) |||
  (RCode.toNat f.rcode &&& 15)

/-- `DnsFlags::serialize`: the flags word as two big-endian bytes. -/
def DnsFlags.serialize (f : DnsFlags) : List Nat := u16be (DnsFlags.word f)

/-! ## Labels and names (src/dns/proto/mod.rs lines 146-277) -/

/-- A `DnsLabel` is its raw byte vector (`label: Vec<u8>`). -/
abbrev DnsLabel := List Nat

/-- A `DnsName` is its label sequence (`labels: Vec<DnsLabel>`). -/
abbrev DnsName := List DnsLabel

/-- `DnsLabel::serialize`: length byte (`len() as u8`) followed by the raw
bytes. -/
def DnsLabel.serialize (label : DnsLabel) : List Nat := label.length % 256 :: label

/-- `DnsLabel::punycode_decode`.  The external `punycode::decode` crate
function is the parameter `ace` (ACE string scalars to Unicode scalars,
`none` on invalid punycode); strings are modelled as their scalar values.
If the label has the 4-byte prefix `xn--` the remainder is UTF-8 decoded and
ACE decoded; otherwise the bytes of `self.serialize()` are UTF-8 decoded. -/
def DnsLabel.punycode_decode (ace : List Nat → Option (List Nat))
    (label : DnsLabel) : Option (List Nat) :=
  if 4 ≤ label.length ∧ label.take 4 = strBytes "xn--" then
    (utf8Decode (label.drop 4)).bind ace
  else
    utf8Decode (DnsLabel.serialize label)

/-- The comparison loop of `DnsName::is_label_of`: pairwise label equality,
`false` when `self` outlasts `other`, `true` when `self` runs out first or
both run out together. -/
def isLabelOfLoop : DnsName → DnsName → Bool
  | sl :: ss, ol :: os => if sl ≠ ol then false else isLabelOfLoop ss os
  | _ :: _, [] => false
  | [], _ => true

/-- `DnsName::is_label_of(self, other)`: length guard then pairwise loop. -/
def DnsName.is_label_of (self other : DnsName) : Bool :=
  if other.length < self.length then false else isLabelOfLoop self other

/-- The accumulation loop of `DnsName::remove_prefix_labels`. -/
def removePrefixLoop : DnsName → DnsName → DnsName → Option DnsName
  | sl :: ss, pl :: ps, acc =>
    if sl ≠ pl then none else removePrefixLoop ss ps acc
  | sl :: ss, [], acc => removePrefixLoop ss [] (acc ++ [sl])
  | [], _ :: _, _ => none
  | [], [], acc => some acc

/-- `DnsName::remove_prefix_labels(self, prefix)`: guarded by
`self.is_label_of(prefix)`, then the pairwise loop collecting the labels of
`self` that outlast `prefix`. -/
def DnsName.remove_prefix_labels (self pre : DnsName) : Option DnsName :=
  if ¬ DnsName.is_label_of self pre then none
  else removePrefixLoop self pre []

/-- `DnsName::serialize`: each label length-prefixed, then a zero byte. -/
def DnsName.serialize (name : DnsName) : List Nat :=
  (name.map DnsLabel.serialize).flatten ++ [0]

/-- `DnsLabel::parse`: a length byte then `take(len)` (nom `take` fails when
fewer than `len` bytes remain). -/
def DnsLabel.parse : List Nat → Option (List Nat × DnsLabel)
  | [] => none
  | len :: rest =>
    if len ≤ rest.length then some (rest.drop len, rest.take len) else none

theorem DnsLabel.parse_length_lt {input rem : List Nat} {l : DnsLabel}
    (h : DnsLabel.parse input = some (rem, l)) : rem.length < input.length := by
  cases input with
  | nil => simp [DnsLabel.parse] at h
  | cons len rest =>
    by_cases hl : len ≤ rest.length
    · simp [DnsLabel.parse, hl] at h
      obtain ⟨h1, _⟩ := h
      subst h1
      simp [List.length_drop]
      omega
    · simp [DnsLabel.parse, hl] at h

/-- The label-reading loop of `DnsName::parse`: read length-prefixed labels,
stop (consuming the terminator) at the first empty label. -/
def DnsName.parseLoop (input : List Nat) : Option (List Nat × DnsName) :=
  match h : DnsLabel.parse input with
  | none => none
  | some (rem, label) =>
    if label.isEmpty then some (rem, [])
    else
      match DnsName.parseLoop rem with
      | none => none
      | some (rem2, labels) => some (rem2, label :: labels)
termination_by input.length
decreasing_by exact DnsLabel.parse_length_lt h

/-- `DnsName::parse`. -/
def DnsName.parse (input : List Nat) : Option (List Nat × DnsName) :=
  DnsName.parseLoop input

/-- `struct DnsQuestion`. -/
structure DnsQuestion : Type where
  qname : DnsName
  qtype : Nat
  qclass : Nat
  deriving DecidableEq

/-- `parse_dns_question` (= `DnsQuestion::parse`): name, then `qtype` and
`qclass` as big-endian `u16`. -/
def parse_dns_question (input : List Nat) : Option (List Nat × DnsQuestion) :=
  match DnsName.parse input with
  | none => none
  | some (input1, qname) =>
    match be_u16 input1 with
    | none => none
    | some (input2, qtype) =>
      match be_u16 input2 with
      | none => none
      | some (input3, qclass) => some (input3, ⟨qname, qtype, qclass⟩)

/-- `serialize_dns_question` (= `DnsQuestion::serialize`). -/
def serialize_dns_question (question : DnsQuestion) : List Nat :=
  DnsName.serialize question.qname ++ u16be question.qtype ++ u16be question.qclass

/-! ## Header (src/dns/proto/mod.rs lines 19-59) -/

/-- `struct DnsHeader`. -/
structure DnsHeader : Type where
  id : Nat
  flags : DnsFlags
  qd_count : Nat
  an_count : Nat
  ns_count : Nat
  ar_count : Nat
  deriving DecidableEq

/-- `DnsHeader::parse`. -/
def DnsHeader.parse (input : List Nat) : Option (List Nat × DnsHeader) :=
  match be_u16 input with
  | none => none
  | some (i1, id) =>
    match DnsFlags.parse i1 with
    | none => none
    | some (i2, flags) =>
      match be_u16 i2 with
      | none => none
      | some (i3, qd) =>
        match be_u16 i3 with
        | none => none
        | some (i4, an) =>
          match be_u16 i4 with
          | none => none
          | some (i5, ns) =>
            match be_u16 i5 with
            | none => none
            | some (i6, ar) => some (i6, ⟨id, flags, qd, an, ns, ar⟩)

/-- `DnsHeader::serialize`: id, flags, qd_count, an_count, then four zero
bytes (ns/ar counts are always written as 0). -/
def DnsHeader.serialize (h : DnsHeader) : List Nat :=
  u16be h.id ++ DnsFlags.serialize h.flags ++ u16be h.qd_count ++
    u16be h.an_count ++ [0, 0, 0, 0]

/-! ## Response builder (src/dns/mod.rs) -/

/-- One protocol segment of a parsed multi-protocol address (the external
`multiaddr` crate's `Protocol`); only the IPv4/IPv6 shapes matter to the
builder, which carries their raw octets. -/
inductive MaProtocol : Type where
  | Ip4 : List Nat → MaProtocol
  | Ip6 : List Nat → MaProtocol
  | OtherProto : MaProtocol
  deriving DecidableEq

/-- `SelectCorrectMultiAddrProtocol for Ipv4Addr`. -/
def selectIp4 : MaProtocol → Option MaProtocol
  | MaProtocol.Ip4 x => some (MaProtocol.Ip4 x)
  | _ => none

/-- `SelectCorrectMultiAddrProtocol for Ipv6Addr`. -/
def selectIp6 : MaProtocol → Option MaProtocol
  | MaProtocol.Ip6 x => some (MaProtocol.Ip6 x)
  | _ => none

/-- A parsed multi-protocol address (the external `multiaddr` crate's
`Multiaddr`), exposing exactly what the builder uses: its protocol stack
(`into_iter`) and `Multiaddr::len()`, which is the length in bytes of the
*encoded* address (carried as a field here since the byte encoding itself
is external to this embedding; e.g. `/ip4/1.2.3.4` encodes to 5 bytes). -/
structure Multiaddr : Type where
  protocols : List MaProtocol
  len : Nat
  deriving DecidableEq

/-- `struct HandleIp4Ip6Ret`. -/
structure HandleIp4Ip6Ret : Type where
  answers : Nat
  response_packet : List Nat
  deriving DecidableEq

/-- `handle_ip4_ip6_question::<T>`: the external multiaddr parser is the
parameter `pm` (`answer.parse::<Multiaddr>()`, `none` on a malformed
string); `select` is `T::select_protocol`.  On an address whose first
protocol matches, emits RDLENGTH and the raw octets and counts one answer;
on any failure emits nothing and counts zero. -/
def handle_ip4_ip6_question (select : MaProtocol → Option MaProtocol)
    (pm : String → Option Multiaddr) (_question : DnsQuestion)
    (answer : String) : HandleIp4Ip6Ret :=
  let multiaddr_ip_query : Except Unit MaProtocol :=
    match pm answer with
    | none => Except.error ()
    | some x =>
      if x.len < 2 then Except.error ()
      else
        match x.protocols.head? with
        | none => Except.error ()
        | some v =>
          match select v with
          | some y => Except.ok y
          | none => Except.error ()
  match multiaddr_ip_query with
  | Except.ok (MaProtocol.Ip4 ip) => ⟨1, u16be 4 ++ ip⟩
  | Except.ok (MaProtocol.Ip6 ip) => ⟨1, u16be 16 ++ ip⟩
  | _ => ⟨0, []⟩

/-- The response flags built by `generate_dns_response_packet`. -/
def responseFlags (original_header : DnsHeader) : DnsFlags :=
  { qr := true
    opcode := Opcode.Query
    aa := false
    tc := false
    rd := original_header.flags.rd
    ra := true
    rcode := RCode.NoError }

/-- One iteration of the answer loop of `generate_dns_response_packet`:
state is `(header.an_count, response_packet)`; `provider` is the external
`DnsAnswerProvider::get_answer_async`.  TXT (`qtype == 16`) emits a full
record and increments the count; A (`qtype == 1`) and AAAA (`qtype == 28`)
write NAME/TYPE/CLASS/TTL, then append whatever `handle_ip4_ip6_question`
returned and add its answer count; other qtypes leave the state unchanged. -/
def answersStep (pm : String → Option Multiaddr)
    (provider : DnsQuestion → Option String) (question : DnsQuestion)
    (acc : Nat × List Nat) : Nat × List Nat :=
  match provider question with
  | none => acc
  | some answer =>
    let qname_bytes := DnsName.serialize question.qname
    if question.qtype = 16 then
      let txt_data := strBytes answer
      let rd_length := (txt_data.length + 1) % 65536
      ((acc.1 + 1) % 65536,
        acc.2 ++ qname_bytes ++ u16be 16 ++ u16be 1 ++ u32be 300 ++
          u16be rd_length ++ [txt_data.length % 256] ++ txt_data)
    else if question.qtype = 1 then
      let ret := handle_ip4_ip6_question selectIp4 pm question answer
      ((acc.1 + ret.answers) % 65536,
        acc.2 ++ qname_bytes ++ u16be question.qtype ++ u16be 1 ++ u32be 300 ++
          ret.response_packet)
    else if question.qtype = 28 then
      let ret := handle_ip4_ip6_question selectIp6 pm question answer
      ((acc.1 + ret.answers) % 65536,
        acc.2 ++ qname_bytes ++ u16be question.qtype ++ u16be 1 ++ u32be 300 ++
          ret.response_packet)
    else acc

/-- The `(an_count, response_packet)` pair after `generate_dns_response_packet`
has serialized the questions and run the answer loop (before the header is
prepended). -/
def responseBodyAndCount (pm : String → Option Multiaddr)
    (provider : DnsQuestion → Option String) (questions : List DnsQuestion) :
    Nat × List Nat :=
  questions.foldl (fun acc question => answersStep pm provider question acc)
    (0, (questions.map serialize_dns_question).flatten)

/-- The finalized header of `generate_dns_response_packet`: response flags,
`qd_count = questions.len() as u16`, `an_count` accumulated by the answer
loop, `ns_count = ar_count = 0`. -/
def responseHeader (pm : String → Option Multiaddr)
    (questions : List DnsQuestion) (original_header : DnsHeader)
    (provider : DnsQuestion → Option String) : DnsHeader :=
  { id := original_header.id
    flags := responseFlags original_header
    qd_count := questions.length % 65536
    an_count := (responseBodyAndCount pm provider questions).1
    ns_count := 0
    ar_count := 0 }

/-- `generate_dns_response_packet`: the serialized finalized header spliced
in front of the question and answer bytes. -/
def generate_dns_response_packet (pm : String → Option Multiaddr)
    (questions : List DnsQuestion) (original_header : DnsHeader)
    (provider : DnsQuestion → Option String) : List Nat :=
  DnsHeader.serialize (responseHeader pm questions original_header provider) ++
    (responseBodyAndCount pm provider questions).2

/-- One iteration of the `(0..qd_count).fold` of `handle_dns_packet`: try to
parse one question from the remaining bytes; on success advance the input
and push the question, on failure keep the state unchanged. -/
def questionsFoldStep (s : List Nat × List DnsQuestion) :
    List Nat × List DnsQuestion :=
  match parse_dns_question s.1 with
  | some (new_input, question) => (new_input, s.2 ++ [question])
  | none => s

/-- The question list produced by the `(0..qd_count).fold` of
`handle_dns_packet`, starting from the bytes after the header. -/
def questionsFold (input : List Nat) (qd_count : Nat) : List DnsQuestion :=
  (questionsFoldStep^[qd_count] (input, [])).2

/-- `handle_dns_packet`: parse the header, run the question fold when
`qd_count > 0`, and build the response; an unparseable header yields the
empty packet. -/
def handle_dns_packet (pm : String → Option Multiaddr)
    (data : List Nat) (provider : DnsQuestion → Option String) : List Nat :=
  match DnsHeader.parse data with
  | some (remaining_data, header) =>
    let questions :=
      if 0 < header.qd_count then questionsFold remaining_data header.qd_count
      else []
    generate_dns_response_packet pm questions header provider
  | none => []

/-! ## Rule trie (src/dns/rule_trie/mod.rs) -/

/-- `enum RuleTrieKey { Label(DnsLabel), Wildcard }`. -/
inductive RuleTrieKey : Type where
  | Label : DnsLabel → RuleTrieKey
  | Wildcard : RuleTrieKey
  deriving DecidableEq

/-- Rust `str::split('.')` on the character sequence: the (possibly empty)
segments between `.` separators; the empty string yields one empty
segment. -/
def splitOnDot : List Char → List (List Char)
  | [] => [[]]
  | c :: rest =>
    match splitOnDot rest with
    | [] => [[]]
    | seg :: segs =>
      if c = '.' then [] :: seg :: segs else (c :: seg) :: segs

/-- The per-segment closure of `impl From<String> for RuleTrieKeyString`:
receives the (`stop_processing_wildcards`, segment) pair and returns the
(`next_stop_processing_wildcards`, key) pair.  `DnsLabel::from(String)`
is the segment's UTF-8 bytes. -/
def ruleTrieKeySeg (stop_processing_wildcards : Bool) (x : String) :
    Bool × RuleTrieKey :=
  if x = "*" ∧ stop_processing_wildcards = false then
    (stop_processing_wildcards, RuleTrieKey.Wildcard)
  else
    (true, RuleTrieKey.Label (strBytes x))

/-- `impl From<String> for RuleTrieKeyString`: split on `.`, pair every
segment with `false`, map the per-segment closure, keep the keys (the
updated flag of each pair is dropped by the final `map`). -/
def ruleTrieKeyStringFrom (s : String) : List RuleTrieKey :=
  ((((splitOnDot s.data).map String.mk).map (fun x => (false, x))).map
    (fun p => ruleTrieKeySeg p.1 p.2)).map (fun p => p.2)

/-- `enum RuleTrieNode<T> { Continue(RuleTrie<T>), Elem(T), None }`, with the
trie (`RuleTrie<T>(HashMap<RuleTrieKey, RuleTrieNode<T>>)`) modelled as the
association list of its entries. -/
inductive RuleTrieNode (T : Type) : Type where
  | Continue : List (RuleTrieKey × RuleTrieNode T) → RuleTrieNode T
  | Elem : T → RuleTrieNode T
  | None : RuleTrieNode T

/-- `RuleTrie<T>` as the entry list of its `HashMap`. -/
abbrev RuleTrie (T : Type) := List (RuleTrieKey × RuleTrieNode T)

/-- `HashMap::get` on the entry list. -/
def alLookup {T : Type} : RuleTrie T → RuleTrieKey → Option (RuleTrieNode T)
  | [], _ => none
  | (k, n) :: rest, key => if k = key then some n else alLookup rest key

/-- `HashMap::contains_key`. -/
def alContains {T : Type} (t : RuleTrie T) (key : RuleTrieKey) : Bool :=
  (alLookup t key).isSome

/-- In-place update of an occupied entry (`Entry::Occupied::get_mut`). -/
def alReplace {T : Type} : RuleTrie T → RuleTrieKey → RuleTrieNode T →
    RuleTrie T
  | [], _, _ => []
  | (k, n) :: rest, key, nn =>
    if k = key then (k, nn) :: rest else (k, n) :: alReplace rest key nn

theorem alLookup_append_of_none {T : Type} {t : RuleTrie T} {key : RuleTrieKey}
    (h : alLookup t key = none) (n : RuleTrieNode T) :
    alLookup (t ++ [(key, n)]) key = some n := by
  induction t with
  | nil => simp [alLookup]
  | cons hd tl ih =>
    obtain ⟨k, v⟩ := hd
    by_cases hk : k = key
    · simp [alLookup, hk] at h
    · simp [alLookup, hk] at h ⊢
      exact ih h

theorem alLookup_alReplace_self {T : Type} (t : RuleTrie T) (key : RuleTrieKey)
    (nn : RuleTrieNode T) :
    alLookup (alReplace t key nn) key = (alLookup t key).map (fun _ => nn) := by
  induction t with
  | nil => simp [alLookup, alReplace]
  | cons hd tl ih =>
    obtain ⟨k, v⟩ := hd
    by_cases hk : k = key
    · simp [alLookup, alReplace, hk]
    · simp [alLookup, alReplace, hk, ih]

/-- Termination measure for `RuleTrie.insert`: twice the remaining key
length, plus one unless the head key fragment is an occupied `Continue`
entry. -/
def insertMeasure {T : Type} (t : RuleTrie T) : List RuleTrieKey → Nat
  | [] => 0
  | kf :: rest =>
    2 * rest.length + 2 +
      (match alLookup t kf with
       | some (RuleTrieNode.Continue _) => 0
       | _ => 1)

theorem insertMeasure_le {T : Type} (t : RuleTrie T) (key : List RuleTrieKey) :
    insertMeasure t key ≤ 2 * key.length + 1 := by
  cases key with
  | nil => simp [insertMeasure]
  | cons kf rest =>
    simp only [insertMeasure, List.length_cons]
    split <;> omega

/-- `RuleTrie::insert(key, value)`: descend on the leftmost key fragment
(`left_pop_clone`); an occupied `Continue` recurses into the subtrie, an
occupied `Elem`/`None` is an error, a vacant entry stores `Elem(value)` when
the rest of the key is empty and otherwise inserts `Continue(RuleTrie::new())`
and re-runs the insertion; an empty key returns `Ok` without storing. -/
def RuleTrie.insert {T : Type} (t : RuleTrie T) (key : List RuleTrieKey)
    (value : T) : Except String (RuleTrie T) :=
  match key with
  | [] => Except.ok t
  | kf :: keyfrag =>
    match hl : alLookup t kf with
    | some (RuleTrieNode.Continue trie) =>
      match RuleTrie.insert trie keyfrag value with
      | Except.ok sub => Except.ok (alReplace t kf (RuleTrieNode.Continue sub))
      | Except.error e => Except.error e
    | some (RuleTrieNode.Elem _) =>
      Except.error "Cannot insert into trie, key already exists"
    | some RuleTrieNode.None =>
      Except.error "Cannot insert into trie, key already exists"
    | none =>
      match keyfrag.length with
      | 0 => Except.ok (t ++ [(kf, RuleTrieNode.Elem value)])
      | _ + 1 =>
        RuleTrie.insert (t ++ [(kf, RuleTrieNode.Continue [])]) (kf :: keyfrag)
          value
termination_by insertMeasure t key
decreasing_by
  · refine lt_of_le_of_lt (insertMeasure_le _ _) ?_
    simp only [insertMeasure, hl]
    omega
  · simp only [insertMeasure, hl, alLookup_append_of_none hl]
    omega

/-- `RuleTrie::get(key)`: descend on the leftmost key fragment, preferring
an exact entry and falling back to the `Wildcard` entry; a `Continue`
recurses, an `Elem` returns its value immediately, `None`/absent fails; an
exhausted key fails. -/
def RuleTrie.get {T : Type} : RuleTrie T → List RuleTrieKey → Option T
  | _, [] => none
  | t, kf :: keyfrag =>
    let node :=
      if alContains t kf then alLookup t kf
      else
        match alLookup t RuleTrieKey.Wildcard with
        | some n => some n
        | none => alLookup t kf
    match node with
    | some (RuleTrieNode.Continue trie) => RuleTrie.get trie keyfrag
    | some (RuleTrieNode.Elem elem) => some elem
    | some RuleTrieNode.None => none
    | none => none

/-- The exact key path `key` already exists in `t` as a chain of `Continue`
entries covering every fragment (the configuration in which
`RuleTrie::insert` returns `Ok` without storing its value). -/
def allContinuePath {T : Type} : RuleTrie T → List RuleTrieKey → Bool
  | _, [] => true
  | t, kf :: rest =>
    match alLookup t kf with
    | some (RuleTrieNode.Continue sub) => allContinuePath sub rest
    | _ => false

/-! ## Helper lemmas -/

theorem isLabelOfLoop_iff : ∀ s o : DnsName, isLabelOfLoop s o = true ↔ s <+: o
  | [], o => by simp [isLabelOfLoop]
  | a :: as, [] => by simp [isLabelOfLoop]
  | a :: as, b :: bs => by
    by_cases hab : a = b
    · subst hab
      simp [isLabelOfLoop, List.cons_prefix_cons, isLabelOfLoop_iff as bs]
    · simp [isLabelOfLoop, List.cons_prefix_cons, hab]

theorem is_label_of_iff (s o : DnsName) :
    DnsName.is_label_of s o = true ↔ s <+: o := by
  unfold DnsName.is_label_of
  by_cases hlen : o.length < s.length
  · simp only [hlen, if_true]
    constructor
    · intro h
      simp at h
    · intro h
      exact absurd (List.IsPrefix.length_le h) (by omega)
  · simp only [hlen, if_false]
    exact isLabelOfLoop_iff s o

theorem removePrefixLoop_of_prefix :
    ∀ (s p acc : DnsName), s <+: p →
      removePrefixLoop s p acc = if s = p then some acc else none
  | [], [], acc, _ => by simp [removePrefixLoop]
  | [], q :: ps, acc, _ => by simp [removePrefixLoop]
  | a :: as, [], acc, h => by
    simp at h
  | a :: as, b :: bs, acc, h => by
    rw [List.cons_prefix_cons] at h
    obtain ⟨hab, hrest⟩ := h
    subst hab
    have ih := removePrefixLoop_of_prefix as bs acc hrest
    simp [removePrefixLoop, ih, List.cons.injEq]

/-! ## Claim C1 -/

/-- C1: the spec's asymmetric wildcard-token rule says a `*` segment after a
concrete segment becomes the literal label `Label("*")`; the code instead
maps every `*` segment to `Wildcard`, because the
`stop_processing_wildcards` flag is recomputed from a constant `false` for
each segment and the updated flag is discarded by the final `map`.  At the
failing input `"a.*"` the code yields `[Label("a"), Wildcard]`. -/
theorem c1_wildcard_after_concrete_segment :
    ruleTrieKeyStringFrom "a.*" =
      [RuleTrieKey.Label [97], RuleTrieKey.Wildcard] ∧
    ruleTrieKeyStringFrom "a.*" ≠
      [RuleTrieKey.Label [97], RuleTrieKey.Label (strBytes "*")] := by
  constructor
  · decide
  · decide

/-! ## Claim C2 -/

/-- C2 counterexample: `["eth"]` is a trailing subsequence (suffix) of
`["avatar","alice","eth"]`, yet `remove_prefix_labels` returns no value
instead of the claimed `["avatar","alice"]`. -/
theorem c2_counterexample :
    [strBytes "eth"].IsSuffix
      [strBytes "avatar", strBytes "alice", strBytes "eth"] ∧
    DnsName.remove_prefix_labels
      [strBytes "avatar", strBytes "alice", strBytes "eth"]
      [strBytes "eth"] = none := by
  constructor
  · decide
  · decide

/-- C2 (amended): `remove_prefix_labels(self, prefix)` returns the empty
name when `prefix`'s labels equal `self`'s labels, and returns no value
otherwise — the guard `self.is_label_of(prefix)` (a leading-subsequence
test of `self` against `prefix`) combined with the loop's failure when
`self` runs out before `prefix` leaves exact equality as the only
successful case, so no suffix (or prefix) is ever actually stripped. -/
theorem c2_remove_prefix_labels_eq (s p : DnsName) :
    DnsName.remove_prefix_labels s p = if s = p then some [] else none := by
  unfold DnsName.remove_prefix_labels
  by_cases hil : DnsName.is_label_of s p = true
  · have hpre : s <+: p := (is_label_of_iff s p).mp hil
    rw [if_neg (by simp [hil]), removePrefixLoop_of_prefix s p [] hpre]
  · have hnp : ¬ s <+: p := fun hc => hil ((is_label_of_iff s p).mpr hc)
    have hne : s ≠ p := fun hc => hnp (hc ▸ List.prefix_refl s)
    simp [hil, hne]

/-! ## Claim C3 -/

/-- C3 counterexample: `["eth"]` is a trailing subsequence (suffix) of
`["alice","eth"]`, yet `is_label_of` returns `false` — the claimed
suffix characterization is wrong. -/
theorem c3_counterexample :
    [strBytes "eth"].IsSuffix [strBytes "alice", strBytes "eth"] ∧
    DnsName.is_label_of [strBytes "eth"] [strBytes "alice", strBytes "eth"]
      = false := by
  constructor
  · decide
  · decide

/-- C3 (amended): `self.is_label_of(other)` returns true iff `self`'s label
sequence is a *leading* subsequence (prefix) of `other`'s label sequence
under pairwise exact byte comparison; in particular it returns true
whenever `self` is empty. -/
theorem c3_is_label_of_eq_leading_subsequence (s o : DnsName) :
    (DnsName.is_label_of s o = true ↔ s <+: o) ∧
    DnsName.is_label_of [] o = true := by
  refine ⟨is_label_of_iff s o, ?_⟩
  rw [is_label_of_iff]
  exact ⟨o, rfl⟩

/-! ## Claim C4 -/

/-- C4: for a label without the `xn--` prefix the claim says exactly the raw
label bytes are interpreted as UTF-8; the code instead UTF-8 decodes
`self.serialize()`, which prepends the length byte.  At the failing input
label `"a"` (bytes `[97]`) the code returns the string `"\u0001a"` (scalars
`[1, 97]`), not `"a"`. -/
theorem c4_punycode_decode_includes_length_byte :
    DnsLabel.punycode_decode (fun _ => none) [97] = some [1, 97] ∧
    DnsLabel.punycode_decode (fun _ => none) [97] ≠ some [97] := by
  constructor
  · decide
  · decide

/-! ## Claim C6 -/

/-- An `Opcode` value whose raw 4-bit code is re-created by
`Opcode::from(u16)`: `Query`, or `Other(raw)` with `1 ≤ raw ≤ 15`. -/
def opcodeCanonical : Opcode → Prop
  | Opcode.Query => True
  | Opcode.Other n => 1 ≤ n ∧ n ≤ 15

/-- An `RCode` value whose raw 4-bit code is re-created by
`RCode::from(u16)`: a named variant, or `Other(raw)` with `3 ≤ raw ≤ 15`. -/
def rcodeCanonical : RCode → Prop
  | RCode.Other n => 3 ≤ n ∧ n ≤ 15
  | _ => True

set_option maxHeartbeats 1000000 in
theorem flags_roundtrip_word (qr aa tc rd ra : Bool) (op rc : Fin 16) :
    DnsFlags.parse (u16be ((qr.toNat <<< 15) ||| ((op.val &&& 15) <<< 11) |||
      (aa.toNat <<< 10) ||| (tc.toNat <<< 9) ||| (rd.toNat <<< 8) |||
      (ra.toNat <<< 7) ||| (rc.val &&& 15))) =
    some ([], ⟨qr, Opcode.fromNat op.val, aa, tc, rd, ra, RCode.fromNat rc.val⟩)
    := by
  revert qr aa tc rd ra op rc
  decide

theorem opcode_fromNat_toNat {op : Opcode} (h : opcodeCanonical op) :
    Opcode.fromNat (Opcode.toNat op) = op := by
  cases op with
  | Query => rfl
  | Other n =>
    obtain ⟨h1, _⟩ := h
    cases n with
    | zero => omega
    | succ m => rfl

theorem rcode_fromNat_toNat {rc : RCode} (h : rcodeCanonical rc) :
    RCode.fromNat (RCode.toNat rc) = rc := by
  cases rc with
  | NoError => rfl
  | FormatError => rfl
  | ServerFailure => rfl
  | Other n =>
    obtain ⟨h1, _⟩ := h
    match n, h1 with
    | m + 3, _ => rfl

/-- C6 counterexample: the claim quantifies over `Other(raw)` with raw at
most 15, which includes `Opcode::Other(0)`; that value serializes to opcode
bits `0000`, which parse back as `Opcode::Query`, so the round-trip is not
the identity there. -/
theorem c6_counterexample :
    DnsFlags.parse (DnsFlags.serialize
      ⟨false, Opcode.Other 0, false, false, false, false, RCode.NoError⟩) ≠
    some ([], ⟨false, Opcode.Other 0, false, false, false, false,
      RCode.NoError⟩) := by
  decide

/-- C6 (amended): `Flags::parse(Flags::serialize(f)) == f` for every flags
value whose booleans are arbitrary and whose opcode and rcode are a named
variant or an `Other(raw)` with raw at most 15 that is not itself a named
code (`raw ≥ 1` for opcode, `raw ≥ 3` for rcode) — for `Other(raw)` equal
to a named code the parse re-canonicalizes to the named variant, so the
round-trip is lossless exactly on canonical values. -/
theorem c6_flags_roundtrip (f : DnsFlags) (hop : opcodeCanonical f.opcode)
    (hrc : rcodeCanonical f.rcode) :
    DnsFlags.parse (DnsFlags.serialize f) = some ([], f) := by
  obtain ⟨qr, op, aa, tc, rd, ra, rc⟩ := f
  simp only at hop hrc
  have hop16 : Opcode.toNat op < 16 := by
    cases op with
    | Query => simp [Opcode.toNat]
    | Other n => exact Nat.lt_succ_of_le hop.2
  have hrc16 : RCode.toNat rc < 16 := by
    cases rc with
    | Other n => exact Nat.lt_succ_of_le hrc.2
    | NoError => simp [RCode.toNat]
    | FormatError => simp [RCode.toNat]
    | ServerFailure => simp [RCode.toNat]
  have key := flags_roundtrip_word qr aa tc rd ra ⟨Opcode.toNat op, hop16⟩
    ⟨RCode.toNat rc, hrc16⟩
  simp only [opcode_fromNat_toNat hop, rcode_fromNat_toNat hrc] at key
  exact key

/-- C6 witness: the amended round-trip at a concrete canonical value. -/
theorem c6_flags_roundtrip_witness :
    DnsFlags.parse (DnsFlags.serialize
      ⟨true, Opcode.Other 5, false, true, true, false, RCode.Other 7⟩) =
    some ([], ⟨true, Opcode.Other 5, false, true, true, false,
      RCode.Other 7⟩) :=
  c6_flags_roundtrip ⟨true, Opcode.Other 5, false, true, true, false,
    RCode.Other 7⟩ (by constructor <;> omega) (by constructor <;> omega)

/-! ## Claim C9 -/

/-- Modelled from the spec's words for the refinement comparison: "parse
exactly `qd_count` Questions sequentially from the remaining bytes; a parse
failure on any question discards that question and all subsequent questions
(processing stops at the first error, returning only the questions
successfully parsed so far)" — the longest sequentially-parsed run of
questions, capped at the declared count. -/
def questionsSpecSeq (input : List Nat) : Nat → List DnsQuestion
  | 0 => []
  | n + 1 =>
    match parse_dns_question input with
    | some (new_input, question) => question :: questionsSpecSeq new_input n
    | none => []

theorem questionsFoldStep_iterate :
    ∀ (n : Nat) (input : List Nat) (acc : List DnsQuestion),
      (questionsFoldStep^[n] (input, acc)).2 = acc ++ questionsSpecSeq input n
  | 0, input, acc => by simp [questionsSpecSeq]
  | n + 1, input, acc => by
    rw [Function.iterate_succ_apply]
    cases h : parse_dns_question input with
    | some p =>
      obtain ⟨ni, q⟩ := p
      have hstep : questionsFoldStep (input, acc) = (ni, acc ++ [q]) := by
        simp [questionsFoldStep, h]
      rw [hstep, questionsFoldStep_iterate n ni (acc ++ [q])]
      simp [questionsSpecSeq, h]
    | none =>
      have hstep : questionsFoldStep (input, acc) = (input, acc) := by
        simp [questionsFoldStep, h]
      rw [hstep, questionsFoldStep_iterate n input acc]
      cases n <;> simp [questionsSpecSeq, h]

/-- C9: when `handle_dns_packet` sees a header with `qd_count > 0`, the
question list produced by its fold is exactly the longest run of
sequentially parsed questions (capped at `qd_count`): the first parse
failure leaves the fold state unchanged, and since parsing is deterministic
every remaining iteration fails on the same input, so that question and all
subsequent ones are discarded. -/
theorem c9_questions_longest_parsed_run (input : List Nat) (qd_count : Nat)
    (hqd : 0 < qd_count) :
    questionsFold input qd_count = questionsSpecSeq input qd_count := by
  unfold questionsFold
  rw [questionsFoldStep_iterate qd_count input []]
  simp

/-- C9 witness: two declared questions over bytes holding one parseable
question (name `a`, qtype 16, qclass 1) and then nothing — the fold keeps
exactly the first question. -/
theorem c9_questions_longest_parsed_run_witness :
    0 < 2 ∧
    questionsFold [1, 97, 0, 0, 16, 0, 1] 2 =
      questionsSpecSeq [1, 97, 0, 0, 16, 0, 1] 2 :=
  ⟨by decide, c9_questions_longest_parsed_run [1, 97, 0, 0, 16, 0, 1] 2
    (by decide)⟩

/-! ## Claim C7 -/

theorem strBytes_hello : strBytes "hello" = [104, 101, 108, 108, 111] := by
  decide

theorem DnsHeader.serialize_length (h : DnsHeader) :
    (DnsHeader.serialize h).length = 12 := by
  simp [DnsHeader.serialize, DnsFlags.serialize, u16be]

/-- C7 (confirmed): with exactly one question of qtype 16 (TXT) and a
provider answering `"hello"`, the generated packet is longer than 12 bytes,
the finalized header's `an_count` is 1, and the packet ends with the answer
record whose RDLENGTH is the answer byte length plus one (6) and whose
RDATA is `[5, 'h', 'e', 'l', 'l', 'o']`. -/
theorem c7_single_txt_answer (pm : String → Option Multiaddr)
    (provider : DnsQuestion → Option String) (q : DnsQuestion)
    (oh : DnsHeader) (hq : q.qtype = 16) (hp : provider q = some "hello") :
    12 < (generate_dns_response_packet pm [q] oh provider).length ∧
    (responseHeader pm [q] oh provider).an_count = 1 ∧
    generate_dns_response_packet pm [q] oh provider =
      DnsHeader.serialize (responseHeader pm [q] oh provider) ++
        (serialize_dns_question q ++ (DnsName.serialize q.qname ++
          (u16be 16 ++ (u16be 1 ++ (u32be 300 ++
            (u16be ((strBytes "hello").length + 1) ++
              ([5, 104, 101, 108, 108, 111]))))))) := by
  have hbody : responseBodyAndCount pm provider [q] =
      (1, serialize_dns_question q ++ (DnsName.serialize q.qname ++
        (u16be 16 ++ (u16be 1 ++ (u32be 300 ++
          (u16be ((strBytes "hello").length + 1) ++
            ([5, 104, 101, 108, 108, 111]))))))) := by
    simp [responseBodyAndCount, answersStep, hp, hq, strBytes_hello]
  refine ⟨?_, ?_, ?_⟩
  · have h6 : ([5, 104, 101, 108, 108, 111] : List Nat).length = 6 := rfl
    simp only [generate_dns_response_packet, hbody, List.length_append,
      DnsHeader.serialize_length, h6]
    omega
  · simp [responseHeader, hbody]
  · simp [generate_dns_response_packet, hbody]

/-- C7 witness: the theorem at a concrete question (`example.eth`, TXT, IN),
concrete original header, and the constant provider returning `"hello"`. -/
theorem c7_single_txt_answer_witness :
    (⟨[[101, 120, 97, 109, 112, 108, 101], [101, 116, 104]], 16, 1⟩ :
      DnsQuestion).qtype = 16 ∧
    (fun (_ : DnsQuestion) => some "hello")
      ⟨[[101, 120, 97, 109, 112, 108, 101], [101, 116, 104]], 16, 1⟩ =
      some "hello" ∧
    12 < (generate_dns_response_packet (fun _ => none)
      [⟨[[101, 120, 97, 109, 112, 108, 101], [101, 116, 104]], 16, 1⟩]
      ⟨7, ⟨false, Opcode.Query, false, false, true, false, RCode.NoError⟩,
        1, 0, 0, 0⟩
      (fun _ => some "hello")).length :=
  ⟨rfl, rfl,
    (c7_single_txt_answer (fun _ => none) (fun _ => some "hello")
      ⟨[[101, 120, 97, 109, 112, 108, 101], [101, 116, 104]], 16, 1⟩
      ⟨7, ⟨false, Opcode.Query, false, false, true, false, RCode.NoError⟩,
        1, 0, 0, 0⟩ rfl rfl).1⟩

/-! ## Claim C8 -/

/-- The answer string does not parse as a multi-protocol address with
encoded byte length at least 2 whose first protocol segment is accepted by
`select`. -/
def maQueryFails (select : MaProtocol → Option MaProtocol) :
    Option Multiaddr → Bool
  | none => true
  | some x =>
    if x.len < 2 then true
    else
      match x.protocols.head? with
      | none => true
      | some v => (select v).isNone

theorem handle_ip4_ip6_question_of_fails
    (select : MaProtocol → Option MaProtocol)
    (pm : String → Option Multiaddr) (q : DnsQuestion) (a : String)
    (h : maQueryFails select (pm a) = true) :
    handle_ip4_ip6_question select pm q a = ⟨0, []⟩ := by
  unfold handle_ip4_ip6_question
  cases hpm : pm a with
  | none => simp
  | some x =>
    rw [hpm] at h
    by_cases hlen : x.len < 2
    · simp [hlen]
    · simp only [maQueryFails, hlen, if_false] at h
      cases hh : x.protocols.head? with
      | none => simp [hlen, hh]
      | some v =>
        rw [hh] at h
        simp at h
        cases hs : select v with
        | none => simp [hlen, hh, hs]
        | some y => rw [hs] at h; simp at h

/-- C8 counterexample: the claim's hypothesis reads the `x.len() < 2` check
as a protocol-segment count, but `Multiaddr::len()` is the encoded byte
length.  The one-segment answer `/ip4/1.2.3.4` (which does *not* have "at
least 2 segments", so the claim's hypothesis holds and it demands zero
records and an orphaned partial record) encodes to 5 bytes, passes the
check, and makes the builder emit a *complete* A record — RDLENGTH 4 and
the four octets — and increment `an_count` from 0 to 1. -/
theorem c8_counterexample :
    ((fun (_ : String) => some (⟨[MaProtocol.Ip4 [1, 2, 3, 4]], 5⟩ :
        Multiaddr)) "/ip4/1.2.3.4").map (fun x => x.protocols.length) =
      some 1 ∧
    answersStep (fun _ => some ⟨[MaProtocol.Ip4 [1, 2, 3, 4]], 5⟩)
      (fun _ => some "/ip4/1.2.3.4") (⟨[[97]], 1, 1⟩ : DnsQuestion)
      (0, []) =
      (1, [] ++ (DnsName.serialize [[97]] ++ (u16be 1 ++ (u16be 1 ++
        (u32be 300 ++ (u16be 4 ++ [1, 2, 3, 4])))))) := by
  constructor
  · rfl
  · simp [answersStep, handle_ip4_ip6_question, selectIp4]

/-- C8 (amended): for a question of qtype 1 (A) or 28 (AAAA) whose answer
string does not parse as a multi-protocol address with *encoded byte
length* at least 2 whose first protocol segment is an IPv4 (respectively
IPv6) address — `Multiaddr::len()` counts encoded bytes, not segments —
the answer loop leaves `an_count` unchanged (zero records counted for this
question) while appending exactly the already-written NAME, TYPE, CLASS
and TTL bytes: an orphaned partial record with no RDLENGTH/RDATA. -/
theorem c8_orphaned_partial_record (pm : String → Option Multiaddr)
    (provider : DnsQuestion → Option String) (q : DnsQuestion) (a : String)
    (c : Nat) (b : List Nat) (hc : c < 65536) (hp : provider q = some a)
    (hfail : (q.qtype = 1 ∧ maQueryFails selectIp4 (pm a) = true) ∨
      (q.qtype = 28 ∧ maQueryFails selectIp6 (pm a) = true)) :
    answersStep pm provider q (c, b) =
      (c, b ++ (DnsName.serialize q.qname ++ (u16be q.qtype ++
        (u16be 1 ++ u32be 300)))) := by
  rcases hfail with ⟨hq, hf⟩ | ⟨hq, hf⟩
  · simp [answersStep, hp, hq,
      handle_ip4_ip6_question_of_fails selectIp4 pm q a hf,
      Nat.mod_eq_of_lt hc]
  · simp [answersStep, hp, hq,
      handle_ip4_ip6_question_of_fails selectIp6 pm q a hf,
      Nat.mod_eq_of_lt hc]

/-- C8 witness: the theorem at a concrete A question whose answer does not
parse as a multiaddr at all. -/
theorem c8_orphaned_partial_record_witness :
    (0 : Nat) < 65536 ∧
    (fun (_ : DnsQuestion) => some "not-a-multiaddr")
      (⟨[[97]], 1, 1⟩ : DnsQuestion) = some "not-a-multiaddr" ∧
    ((⟨[[97]], 1, 1⟩ : DnsQuestion).qtype = 1 ∧
      maQueryFails selectIp4 ((fun (_ : String) =>
        (none : Option Multiaddr)) "not-a-multiaddr") = true) ∧
    answersStep (fun _ => none) (fun _ => some "not-a-multiaddr")
      ⟨[[97]], 1, 1⟩ (0, []) =
      (0, [] ++ (DnsName.serialize [[97]] ++ (u16be 1 ++
        (u16be 1 ++ u32be 300)))) :=
  ⟨by decide, rfl, ⟨rfl, rfl⟩,
    c8_orphaned_partial_record (fun _ => none)
      (fun _ => some "not-a-multiaddr") ⟨[[97]], 1, 1⟩ "not-a-multiaddr" 0 []
      (by decide) rfl (Or.inl ⟨rfl, rfl⟩)⟩

/-! ## Claim C10 -/

theorem handle_ip4_ip6_question_answers_le_one
    (select : MaProtocol → Option MaProtocol)
    (pm : String → Option Multiaddr) (q : DnsQuestion) (a : String) :
    (handle_ip4_ip6_question select pm q a).answers ≤ 1 := by
  unfold handle_ip4_ip6_question
  cases hpm : pm a with
  | none => simp
  | some x =>
    by_cases hlen : x.len < 2
    · simp [hlen]
    · cases hh : x.protocols.head? with
      | none => simp [hlen, hh]
      | some v =>
        cases hs : select v with
        | none => simp [hlen, hh, hs]
        | some y => cases y <;> simp [hlen, hh, hs]

theorem answersStep_count_le (pm : String → Option Multiaddr)
    (provider : DnsQuestion → Option String) (q : DnsQuestion)
    (acc : Nat × List Nat) :
    (answersStep pm provider q acc).1 ≤ acc.1 + 1 := by
  unfold answersStep
  cases hp : provider q with
  | none => simp
  | some a =>
    by_cases h16 : q.qtype = 16
    · simp only [h16, if_true]
      exact le_trans (Nat.mod_le _ _) (by omega)
    · by_cases h1 : q.qtype = 1
      · simp only [h16, h1, if_false, if_true]
        refine le_trans (Nat.mod_le _ _) ?_
        have := handle_ip4_ip6_question_answers_le_one selectIp4 pm q a
        omega
      · by_cases h28 : q.qtype = 28
        · simp only [h16, h1, h28, if_false, if_true]
          refine le_trans (Nat.mod_le _ _) ?_
          have := handle_ip4_ip6_question_answers_le_one selectIp6 pm q a
          omega
        · simp [h16, h1, h28]

theorem answersFold_count_le (pm : String → Option Multiaddr)
    (provider : DnsQuestion → Option String) :
    ∀ (qs : List DnsQuestion) (acc : Nat × List Nat),
      (qs.foldl (fun acc q => answersStep pm provider q acc) acc).1 ≤
        acc.1 + qs.length
  | [], acc => by simp
  | q :: qs, acc => by
    rw [List.foldl_cons]
    refine le_trans (answersFold_count_le pm provider qs _) ?_
    have := answersStep_count_le pm provider q acc
    simp only [List.length_cons]
    omega

theorem responseHeader_qd_count (pm : String → Option Multiaddr)
    (questions : List DnsQuestion) (oh : DnsHeader)
    (provider : DnsQuestion → Option String) :
    (responseHeader pm questions oh provider).qd_count =
      questions.length % 65536 := rfl

/-- C10 counterexample: with 65536 questions the finalized header's
`qd_count` is `65536 as u16 = 0`, not the number of questions passed in,
so the claim's "qd_count equals the number of questions" fails. -/
theorem c10_counterexample :
    ¬ ((responseHeader (fun _ => none)
        (List.replicate 65536 (⟨[], 0, 0⟩ : DnsQuestion))
        ⟨0, ⟨false, Opcode.Query, false, false, false, false, RCode.NoError⟩,
          0, 0, 0, 0⟩
        (fun _ => none)).qd_count =
      (List.replicate 65536 (⟨[], 0, 0⟩ : DnsQuestion)).length) := by
  intro hcontra
  rw [responseHeader_qd_count, List.length_replicate] at hcontra
  omega

/-- C10 (amended): for every question list of fewer than 65536 questions
and every answer provider, the finalized header satisfies
`an_count ≤ qd_count` and `qd_count` equals the number of questions passed
in — each question increments `an_count` at most once (TXT adds exactly 1
when an answer is present, A/AAAA add 0 or 1, other qtypes add 0),
regardless of the provider's strings.  (With 65536 or more questions the
`u16` field truncates, hence the length bound.) -/
theorem c10_an_count_le_qd_count (pm : String → Option Multiaddr)
    (provider : DnsQuestion → Option String) (questions : List DnsQuestion)
    (oh : DnsHeader) (hlen : questions.length < 65536) :
    (responseHeader pm questions oh provider).an_count ≤
      (responseHeader pm questions oh provider).qd_count ∧
    (responseHeader pm questions oh provider).qd_count = questions.length
    := by
  have hqd : (responseHeader pm questions oh provider).qd_count =
      questions.length := by
    simp [responseHeader, Nat.mod_eq_of_lt hlen]
  refine ⟨?_, hqd⟩
  rw [hqd]
  have han : (responseHeader pm questions oh provider).an_count =
      (questions.foldl (fun acc q => answersStep pm provider q acc)
        (0, (questions.map serialize_dns_question).flatten)).1 := rfl
  rw [han]
  have hle := answersFold_count_le pm provider questions
    (0, (questions.map serialize_dns_question).flatten)
  omega

/-- C10 witness: the amended bound at one TXT question with an answering
provider: `an_count = 1 ≤ 1 = qd_count`. -/
theorem c10_an_count_le_qd_count_witness :
    ([(⟨[[97]], 16, 1⟩ : DnsQuestion)].length < 65536) ∧
    (responseHeader (fun _ => none) [⟨[[97]], 16, 1⟩]
      ⟨0, ⟨false, Opcode.Query, false, false, false, false, RCode.NoError⟩,
        1, 0, 0, 0⟩ (fun _ => some "x")).an_count ≤
      (responseHeader (fun _ => none) [⟨[[97]], 16, 1⟩]
        ⟨0, ⟨false, Opcode.Query, false, false, false, false, RCode.NoError⟩,
          1, 0, 0, 0⟩ (fun _ => some "x")).qd_count :=
  ⟨by decide,
    (c10_an_count_le_qd_count (fun _ => none) (fun _ => some "x")
      [⟨[[97]], 16, 1⟩]
      ⟨0, ⟨false, Opcode.Query, false, false, false, false, RCode.NoError⟩,
        1, 0, 0, 0⟩ (by decide)).1⟩

/-! ## Claim C5 -/

theorem insert_nil {T : Type} (t : RuleTrie T) (v : T) :
    RuleTrie.insert t [] v = Except.ok t := by
  rw [RuleTrie.insert]

theorem insert_cons_continue {T : Type} (t : RuleTrie T) (kf : RuleTrieKey)
    (rest : List RuleTrieKey) (v : T) (sub : RuleTrie T)
    (hl : alLookup t kf = some (RuleTrieNode.Continue sub)) :
    RuleTrie.insert t (kf :: rest) v =
      (match RuleTrie.insert sub rest v with
       | Except.ok s2 => Except.ok (alReplace t kf (RuleTrieNode.Continue s2))
       | Except.error e => Except.error e) := by
  rw [RuleTrie.insert]
  split
  · rename_i sub2 heq
    rw [hl] at heq
    injection heq with h
    injection h with h2
    rw [h2]
  · rename_i e heq
    rw [hl] at heq
    injection heq with h
    injection h
  · rename_i heq
    rw [hl] at heq
    injection heq with h
    injection h
  · rename_i heq
    rw [hl] at heq
    injection heq

theorem insert_cons_elem {T : Type} (t : RuleTrie T) (kf : RuleTrieKey)
    (rest : List RuleTrieKey) (v : T) (e : T)
    (hl : alLookup t kf = some (RuleTrieNode.Elem e)) :
    RuleTrie.insert t (kf :: rest) v =
      Except.error "Cannot insert into trie, key already exists" := by
  rw [RuleTrie.insert]
  split
  all_goals
    first
    | rfl
    | simp_all

theorem insert_cons_nodeNone {T : Type} (t : RuleTrie T) (kf : RuleTrieKey)
    (rest : List RuleTrieKey) (v : T)
    (hl : alLookup t kf = some RuleTrieNode.None) :
    RuleTrie.insert t (kf :: rest) v =
      Except.error "Cannot insert into trie, key already exists" := by
  rw [RuleTrie.insert]
  split
  all_goals
    first
    | rfl
    | simp_all

theorem insert_cons_vacant_nil {T : Type} (t : RuleTrie T) (kf : RuleTrieKey)
    (v : T) (hl : alLookup t kf = none) :
    RuleTrie.insert t [kf] v =
      Except.ok (t ++ [(kf, RuleTrieNode.Elem v)]) := by
  rw [RuleTrie.insert]
  split
  all_goals
    first
    | rfl
    | (rename_i heq; rw [hl] at heq; injection heq)

theorem insert_cons_vacant_cons {T : Type} (t : RuleTrie T)
    (kf : RuleTrieKey) (r : RuleTrieKey) (rs : List RuleTrieKey) (v : T)
    (hl : alLookup t kf = none) :
    RuleTrie.insert t (kf :: r :: rs) v =
      RuleTrie.insert (t ++ [(kf, RuleTrieNode.Continue [])]) (kf :: r :: rs)
        v := by
  rw [RuleTrie.insert]
  split
  all_goals
    first
    | rfl
    | (rename_i heq; rw [hl] at heq; injection heq)

theorem get_cons_continue {T : Type} (t : RuleTrie T) (kf : RuleTrieKey)
    (rest : List RuleTrieKey) (sub : RuleTrie T)
    (hl : alLookup t kf = some (RuleTrieNode.Continue sub)) :
    RuleTrie.get t (kf :: rest) = RuleTrie.get sub rest := by
  rw [RuleTrie.get]
  simp [alContains, hl]

theorem get_cons_elem {T : Type} (t : RuleTrie T) (kf : RuleTrieKey)
    (rest : List RuleTrieKey) (e : T)
    (hl : alLookup t kf = some (RuleTrieNode.Elem e)) :
    RuleTrie.get t (kf :: rest) = some e := by
  rw [RuleTrie.get]
  simp [alContains, hl]

/-- C5 (amended): if `insert(key_path, value)` returns `Ok` and the key path
is nonempty and does not already exist in the trie as a full chain of
`Continue` entries, then the value is stored as an `Elem` at the end of the
path and a subsequent `get(key_path)` returns it.  (When the key path is
already a full `Continue` chain — i.e. a proper prefix of a previously
inserted key — `insert` returns `Ok` without storing the value, which is
what the counterexample exhibits.) -/
theorem c5_insert_then_get {T : Type} :
    ∀ (key : List RuleTrieKey) (t t2 : RuleTrie T) (v : T),
      RuleTrie.insert t key v = Except.ok t2 → key ≠ [] →
      allContinuePath t key = false →
      RuleTrie.get t2 key = some v
  | [], _, _, _, _, hne, _ => absurd rfl hne
  | kf :: rest, t, t2, v, hins, _, hacp => by
    cases hl : alLookup t kf with
    | some node =>
      cases node with
      | Continue sub =>
        rw [insert_cons_continue t kf rest v sub hl] at hins
        cases hsub : RuleTrie.insert sub rest v with
        | error e => rw [hsub] at hins; exact absurd hins (by simp)
        | ok s2 =>
          rw [hsub] at hins
          simp only [Except.ok.injEq] at hins
          subst hins
          have hacp2 : allContinuePath sub rest = false := by
            simpa [allContinuePath, hl] using hacp
          cases rest with
          | nil => simp [allContinuePath] at hacp2
          | cons r rs =>
            have hget := c5_insert_then_get (r :: rs) sub s2 v hsub
              (by simp) hacp2
            have hl2 : alLookup (alReplace t kf (RuleTrieNode.Continue s2)) kf
                = some (RuleTrieNode.Continue s2) := by
              rw [alLookup_alReplace_self, hl]
              rfl
            rw [get_cons_continue _ kf _ _ hl2]
            exact hget
      | Elem e =>
        rw [insert_cons_elem t kf rest v e hl] at hins
        exact absurd hins (by simp)
      | None =>
        rw [insert_cons_nodeNone t kf rest v hl] at hins
        exact absurd hins (by simp)
    | none =>
      cases rest with
      | nil =>
        rw [insert_cons_vacant_nil t kf v hl] at hins
        simp only [Except.ok.injEq] at hins
        subst hins
        have hl2 := alLookup_append_of_none hl (RuleTrieNode.Elem v)
        rw [get_cons_elem _ kf _ _ hl2]
      | cons r rs =>
        rw [insert_cons_vacant_cons t kf r rs v hl] at hins
        have hlC : alLookup (t ++ [(kf, RuleTrieNode.Continue [])]) kf =
            some (RuleTrieNode.Continue ([] : RuleTrie T)) :=
          alLookup_append_of_none hl _
        rw [insert_cons_continue _ kf (r :: rs) v [] hlC] at hins
        cases hsub : RuleTrie.insert ([] : RuleTrie T) (r :: rs) v with
        | error e => rw [hsub] at hins; exact absurd hins (by simp)
        | ok s2 =>
          rw [hsub] at hins
          simp only [Except.ok.injEq] at hins
          subst hins
          have hacp0 : allContinuePath ([] : RuleTrie T) (r :: rs) = false
            := by simp [allContinuePath, alLookup]
          have hget := c5_insert_then_get (r :: rs) [] s2 v hsub
            (by simp) hacp0
          have hl2 : alLookup (alReplace (t ++ [(kf, RuleTrieNode.Continue [])])
              kf (RuleTrieNode.Continue s2)) kf
              = some (RuleTrieNode.Continue s2) := by
            rw [alLookup_alReplace_self, hlC]
            rfl
          rw [get_cons_continue _ kf _ _ hl2]
          exact hget

/-- The trie holding exactly the key path of `"a.b"` mapped to `1`, used as
the concrete trie in the C5 artifacts. -/
def trieAB : RuleTrie Nat :=
  [(RuleTrieKey.Label [97], RuleTrieNode.Continue
    [(RuleTrieKey.Label [98], RuleTrieNode.Elem 1)])]

/-- C5 counterexample: after inserting `"a.b" → 1`, inserting `"a" → 2`
returns `Ok` (leaving the trie unchanged, the value silently dropped), yet
`get` on `"a"` returns no value instead of the claimed `2` — insert-then-get
does not round-trip even though insert reported success. -/
theorem c5_counterexample :
    RuleTrie.insert ([] : RuleTrie Nat) (ruleTrieKeyStringFrom "a.b") 1 =
      Except.ok trieAB ∧
    RuleTrie.insert trieAB (ruleTrieKeyStringFrom "a") 2 =
      Except.ok trieAB ∧
    RuleTrie.get trieAB (ruleTrieKeyStringFrom "a") = (none : Option Nat) := by
  have hk1 : ruleTrieKeyStringFrom "a.b" =
      [RuleTrieKey.Label [97], RuleTrieKey.Label [98]] := by decide
  have hk2 : ruleTrieKeyStringFrom "a" = [RuleTrieKey.Label [97]] := by decide
  refine ⟨?_, ?_, ?_⟩
  · rw [hk1]
    simp [RuleTrie.insert, alLookup, alReplace, trieAB]
  · rw [hk2]
    simp [RuleTrie.insert, alLookup, alReplace, trieAB]
  · rw [hk2]
    simp [RuleTrie.get, alContains, alLookup, trieAB]

/-- C5 witness: the amended theorem at the key path from `"a.b"` inserted
into the empty trie; the hypotheses hold and `get` returns the value. -/
theorem c5_insert_then_get_witness :
    RuleTrie.insert ([] : RuleTrie Nat) (ruleTrieKeyStringFrom "a.b") 1 =
      Except.ok trieAB ∧
    ruleTrieKeyStringFrom "a.b" ≠ [] ∧
    allContinuePath ([] : RuleTrie Nat) (ruleTrieKeyStringFrom "a.b") = false ∧
    RuleTrie.get trieAB (ruleTrieKeyStringFrom "a.b") = some 1 := by
  have hk1 : ruleTrieKeyStringFrom "a.b" =
      [RuleTrieKey.Label [97], RuleTrieKey.Label [98]] := by decide
  have hins : RuleTrie.insert ([] : RuleTrie Nat)
      (ruleTrieKeyStringFrom "a.b") 1 = Except.ok trieAB := by
    rw [hk1]
    simp [RuleTrie.insert, alLookup, alReplace, trieAB]
  refine ⟨hins, by rw [hk1]; simp, by rw [hk1]; rfl, ?_⟩
  exact c5_insert_then_get (ruleTrieKeyStringFrom "a.b") [] trieAB 1 hins
    (by rw [hk1]; simp) (by rw [hk1]; rfl)

end Limo
